import Mathlib

/-!
Verification of the flashcard-maker front end (`src/index.tsx`).

The file embeds the two logic-bearing parts of the program — the
response parser (key-value and free-form paths) and the view-state
machine (mode, focused index, card list, shuffle) — as executable Lean
definitions over `List Char` strings and a `ViewState` record, and then
proves or refutes the specified properties about them.

Strings are modelled as `List Char`; `splitOnChar`, `joinSep` and `trim`
mirror JavaScript's `String.split`, `Array.join` and `String.trim` on
the character sets that occur in the program.
-/

namespace FlashcardMaker

/-- JavaScript strings, modelled as lists of characters. -/
abbrev JSStr := List Char

/-- Whitespace characters removed by `String.trim` (ASCII subset). -/
def wsChar (c : Char) : Bool :=
  c = ' ' || c = '\t' || c = '\n' || c = '\r' || c = Char.ofNat 11 || c = Char.ofNat 12

/-- Model of JavaScript `String.prototype.trim`. -/
def trim (l : JSStr) : JSStr :=
  ((l.dropWhile wsChar).reverse.dropWhile wsChar).reverse

/-- Model of JavaScript `String.prototype.split(sep)` for a one-character
separator: `"".split(sep) = [""]`, and a separator at either end yields an
empty piece there. -/
def splitOnChar (sep : Char) : List Char → List (List Char)
  | [] => [[]]
  | c :: cs =>
    if c = sep then
      [] :: splitOnChar sep cs
    else
      match splitOnChar sep cs with
      | [] => [[c]]
      | h :: t => (c :: h) :: t

/-- Model of JavaScript `Array.prototype.join(sep)` for a one-character
separator. -/
def joinSep (sep : Char) : List (List Char) → List Char
  | [] => []
  | x :: xs =>
    match xs with
    | [] => x
    | _ :: _ => x ++ sep :: joinSep sep xs

/-- Model of `String.prototype.toLowerCase` (ASCII case folding). -/
def toLowerStr (l : JSStr) : JSStr := l.map Char.toLower

/-- Intermediate record of the key-value input path (`{term, definition}`
object built in `termDefPairs`, index.tsx lines 203-208). -/
structure TermDefPair where
  term : JSStr
  definition : JSStr
  deriving DecidableEq

/-- The `Flashcard` interface of index.tsx (lines 7-11). -/
structure Flashcard where
  emoji : JSStr
  term : JSStr
  definition : JSStr
  deriving DecidableEq

/-- The line filter used for both the key-value topic and the emoji
response: keep lines that are non-blank after trimming and contain a
colon (index.tsx lines 200-202 and 231-233). -/
def qualifyingLines (text : JSStr) : List JSStr :=
  (splitOnChar '\n' text).filter (fun line => !(trim line).isEmpty && line.contains ':')

/-- `parts[0].trim()` after `line.split(':')`. -/
def parsedTerm (line : JSStr) : JSStr := trim ((splitOnChar ':' line).headD [])

/-- `parts.slice(1).join(':').trim()` after `line.split(':')`. -/
def parsedRest (line : JSStr) : JSStr := trim (joinSep ':' (splitOnChar ':' line).tail)

/-- The `termDefPairs` computation of the key-value path
(index.tsx lines 200-208). -/
def termDefPairs (topic : JSStr) : List TermDefPair :=
  (qualifyingLines topic).map (fun line => { term := parsedTerm line, definition := parsedRest line })

/-- The mode heuristic `topic.includes(':') && topic.includes('\n')`
(index.tsx line 194); `topic` is the already-trimmed input. -/
def isKeyValueInput (topic : JSStr) : Bool := topic.contains ':' && topic.contains '\n'

/-- The two error kinds of the generation flow: the validation throw at
index.tsx line 211 and the empty-result throw at lines 284-288. -/
inductive GenFailure where
  | invalidFormat
  | noFlashcards
  deriving DecidableEq

/-- The local validation step of the key-value path: the throw at
index.tsx lines 210-212, before any network call. -/
def keyValueValidation (topic : JSStr) : Except GenFailure (List TermDefPair) :=
  if (termDefPairs topic).isEmpty then Except.error GenFailure.invalidFormat
  else Except.ok (termDefPairs topic)

/-- The default emoji literal used when a term has no match
(index.tsx line 251); its exact characters are irrelevant, only that it
is a fixed non-empty string. -/
def fallbackEmoji : JSStr := [Char.ofNat 0xE2, Char.ofNat 0x153, Char.ofNat 0xA8]

/-- JavaScript `x || fallback` where `x : string | undefined`: both
`undefined` and the empty string are falsy (index.tsx line 251). -/
def jsOrFallback (o : Option JSStr) : JSStr :=
  match o with
  | none => fallbackEmoji
  | some s => if s.isEmpty then fallbackEmoji else s

/-- `Map.get`: the most recent `set` for the key wins.  The map is
modelled as an association list onto which `set` conses, so the first
matching entry is the latest write. -/
def mapGet (m : List (JSStr × JSStr)) (k : JSStr) : Option JSStr :=
  match m.find? (fun e => e.1 == k) with
  | some e => some e.2
  | none => none

/-- One emoji-response line processed into the map (index.tsx lines
234-245): parse term and emoji, find the first original term matching
case-insensitively, and on success record `(originalTerm, emoji)`. -/
def emojiStep (terms : List JSStr) (m : List (JSStr × JSStr)) (line : JSStr) :
    List (JSStr × JSStr) :=
  match terms.find? (fun t => toLowerStr t == toLowerStr (parsedTerm line)) with
  | some originalTerm => (originalTerm, parsedRest line) :: m
  | none => m

/-- The `emojiMap` built from the emoji response (index.tsx lines 230-245). -/
def emojiMap (terms : List JSStr) (resp : JSStr) : List (JSStr × JSStr) :=
  (qualifyingLines resp).foldl (emojiStep terms) []

/-- The final records of the key-value path (index.tsx lines 248-252):
each original pair keeps its term and definition, and its emoji is the
map entry for the term, or the fallback. -/
def keyValueFlashcards (pairs : List TermDefPair) (resp : JSStr) : List Flashcard :=
  pairs.map fun p =>
    { emoji := jsOrFallback (mapGet (emojiMap (pairs.map TermDefPair.term) resp) p.term)
      term := p.term
      definition := p.definition }

/-- The free-form path's line filter (index.tsx lines 267-269): keep
non-blank lines only. -/
def nonBlankLines (text : JSStr) : List JSStr :=
  (splitOnChar '\n' text).filter (fun line => !(trim line).isEmpty)

/-- One free-form line parsed into a flashcard (index.tsx lines 270-281):
lines with fewer than 3 colon-separated parts yield nothing. -/
def parseTriplet (line : JSStr) : Option Flashcard :=
  let parts := splitOnChar ':' line
  if 3 ≤ parts.length then
    some { emoji := trim (parts.getD 0 [])
           term := trim (parts.getD 1 [])
           definition := trim (joinSep ':' (parts.drop 2)) }
  else none

/-- All flashcards parsed from a free-form response. -/
def freeFormFlashcards (text : JSStr) : List Flashcard :=
  (nonBlankLines text).filterMap parseTriplet

/-- The free-form path's outcome including the empty-result check of
index.tsx lines 284-288. -/
def freeFormResult (text : JSStr) : Except GenFailure (List Flashcard) :=
  if (freeFormFlashcards text).isEmpty then Except.error GenFailure.noFlashcards
  else Except.ok (freeFormFlashcards text)

/-- A rendered card: a DOM node identity plus the transient `flipped`
presentation flag (the `.flipped` CSS class). -/
structure Card where
  id : Nat
  flipped : Bool
  deriving DecidableEq

instance : Inhabited Card := ⟨⟨0, false⟩⟩

/-- The UI state variables of index.tsx (lines 36-37) together with the
ordered card list held by `flashcardsContainer`. -/
structure ViewState where
  isFocusMode : Bool
  currentCardIndex : Nat
  cards : List Card
  deriving DecidableEq

/-- State effect of `updateCardVisibility` (index.tsx lines 92-126): with
no cards it forces `isFocusMode := false`; otherwise it only recomputes
derived presentation (visibility, active class, counter) and changes no
state variable.  It never touches `currentCardIndex`. -/
def updateCardVisibility (s : ViewState) : ViewState :=
  if s.cards.isEmpty then { s with isFocusMode := false } else s

/-- Removal of the `.flipped` class from one card. -/
def unflipCard (c : Card) : Card := { c with flipped := false }

/-- Direction argument of `navigateCards`. -/
inductive Dir where
  | next
  | prev
  deriving DecidableEq

/-- `navigateCards` (index.tsx lines 128-146): early return with fewer
than two cards; otherwise un-flip the card at the current index (when it
exists), advance the index with wrap-around, and recompute visibility. -/
def navigateCards (dir : Dir) (s : ViewState) : ViewState :=
  if s.cards.length ≤ 1 then s
  else
    let cards := s.cards.set s.currentCardIndex (unflipCard (s.cards.getD s.currentCardIndex default))
    let newIndex :=
      match dir with
      | Dir.next => (s.currentCardIndex + 1) % s.cards.length
      | Dir.prev => (s.currentCardIndex + s.cards.length - 1) % s.cards.length
    updateCardVisibility { s with cards := cards, currentCardIndex := newIndex }

/-- The mode-switch button handler (index.tsx lines 148-163): toggle the
flag, reset the index on entering focus, un-flip every card on leaving,
then recompute visibility. -/
def modeSwitchClick (s : ViewState) : ViewState :=
  updateCardVisibility
    (if !s.isFocusMode then { s with isFocusMode := true, currentCardIndex := 0 }
     else { s with isFocusMode := false, cards := s.cards.map unflipCard })

/-- The delete-button handler's state effect once the removal animation
ends (index.tsx lines 329-336): remove the card, then recompute
visibility.  No index adjustment is performed. -/
def deleteCardClick (i : Nat) (s : ViewState) : ViewState :=
  updateCardVisibility { s with cards := s.cards.eraseIdx i }

/-- `resetUI` (index.tsx lines 82-90): state effect is leaving focus mode
and resetting the index (the container is cleared separately). -/
def resetUI (s : ViewState) : ViewState :=
  { s with isFocusMode := false, currentCardIndex := 0 }

/-- A successful generation (index.tsx lines 186-357): the container is
cleared, `resetUI` runs, fresh unflipped cards are appended, and the
`finally` block recomputes visibility. -/
def generateAddCards (ids : List Nat) (s : ViewState) : ViewState :=
  updateCardVisibility { resetUI s with cards := ids.map (fun n => { id := n, flipped := false }) }

/-- DOM `insertBefore` positioning: insert `x` immediately before the
first occurrence of `y` (append when `y` is absent). -/
def insertBeforeFirst {α : Type} [DecidableEq α] (x y : α) : List α → List α
  | [] => [x]
  | a :: t => if a = y then x :: a :: t else a :: insertBeforeFirst x y t

/-- DOM `parent.insertBefore(x, y)` on the child list: when `x = y` the
DOM pre-insertion algorithm makes it a no-op; otherwise `x` is detached
and re-inserted before `y`. -/
def domInsertBefore {α : Type} [DecidableEq α] (l : List α) (x y : α) : List α :=
  if x = y then l else insertBeforeFirst x y (l.erase x)

/-- The shuffle loop body applied for `i = n, n-1, ..., 1` (index.tsx
lines 365-368): `insertBefore(cards[r i], cards[i])`, where `cards` is
the snapshot taken before the loop. -/
def shuffleGo {α : Type} [DecidableEq α] [Inhabited α] (cards : List α) (r : Nat → Nat) :
    Nat → List α → List α
  | 0, l => l
  | i + 1, l =>
    shuffleGo cards r i (domInsertBefore l (cards.getD (r (i + 1)) default) (cards.getD (i + 1) default))

/-- The shuffle-button handler (index.tsx lines 360-369), with the random
draws `Math.floor(Math.random() * (i + 1))` abstracted as `r i`. -/
def shuffleList {α : Type} [DecidableEq α] [Inhabited α] (cards : List α) (r : Nat → Nat) :
    List α :=
  shuffleGo cards r (cards.length - 1) cards

/-- The shuffle-button handler's effect on the view state: only the card
order changes (the handler does not touch mode or index). -/
def shuffleClick (r : Nat → Nat) (s : ViewState) : ViewState :=
  { s with cards := shuffleList s.cards r }

/-- Modelled from the spec: the reference swap-based Fisher-Yates step,
"for position i from last down to 1, pick uniform random j in [0,i],
swap elements i and j".  Used only to compare the program's shuffle
against the algorithm the spec names. -/
def swapIdx {α : Type} [Inhabited α] (l : List α) (i j : Nat) : List α :=
  (l.set i (l.getD j default)).set j (l.getD i default)

/-- Modelled from the spec: the reference Fisher-Yates loop. -/
def fyGo {α : Type} [Inhabited α] (r : Nat → Nat) : Nat → List α → List α
  | 0, l => l
  | i + 1, l => fyGo r i (swapIdx l (i + 1) (r (i + 1)))

/-- Modelled from the spec: the reference Fisher-Yates shuffle on a list,
with the same abstract random draws `r`. -/
def fisherYatesSpec {α : Type} [Inhabited α] (l : List α) (r : Nat → Nat) : List α :=
  fyGo r (l.length - 1) l

/-- The spec's ViewState invariant: in focus mode with a non-empty card
list the focused index is in range. -/
def focusInv (s : ViewState) : Prop :=
  s.isFocusMode = true → s.cards ≠ [] → s.currentCardIndex < s.cards.length

instance (s : ViewState) : Decidable (focusInv s) := by
  unfold focusInv; infer_instance

/-! ### Lemmas about splitting and joining -/

lemma splitOnChar_ne_nil (sep : Char) (l : List Char) : splitOnChar sep l ≠ [] := by
  induction l with
  | nil => simp [splitOnChar]
  | cons c cs ih =>
    by_cases hc : c = sep
    · simp [splitOnChar, hc]
    · cases hsp : splitOnChar sep cs with
      | nil => simp [splitOnChar, hc, hsp]
      | cons h t => simp [splitOnChar, hc, hsp]

lemma splitOnChar_headD (sep : Char) (l : List Char) :
    (splitOnChar sep l).headD [] = l.takeWhile (fun c => c != sep) := by
  induction l with
  | nil => simp [splitOnChar]
  | cons c cs ih =>
    by_cases hc : c = sep
    · subst hc
      simp [splitOnChar]
    · cases hsp : splitOnChar sep cs with
      | nil => exact absurd hsp (splitOnChar_ne_nil sep cs)
      | cons h t =>
        rw [hsp] at ih
        simp only [List.headD_cons] at ih
        simp [splitOnChar, hc, hsp, List.takeWhile_cons, bne_iff_ne, ih]

lemma joinSep_splitOnChar (sep : Char) (l : List Char) :
    joinSep sep (splitOnChar sep l) = l := by
  induction l with
  | nil => simp [splitOnChar, joinSep]
  | cons c cs ih =>
    cases hsp : splitOnChar sep cs with
    | nil => exact absurd hsp (splitOnChar_ne_nil sep cs)
    | cons h t =>
      rw [hsp] at ih
      by_cases hc : c = sep
      · subst hc
        simp only [joinSep] at ih
        simp [splitOnChar, hsp, joinSep, ih]
      · cases t with
        | nil =>
          simp only [joinSep] at ih
          simp [splitOnChar, hc, hsp, joinSep, ih]
        | cons h2 t2 =>
          simp only [joinSep] at ih
          simp [splitOnChar, hc, hsp, joinSep, ih]

lemma joinSep_tail_splitOnChar (sep : Char) (l : List Char) :
    joinSep sep (splitOnChar sep l).tail = (l.dropWhile (fun c => c != sep)).drop 1 := by
  induction l with
  | nil => simp [splitOnChar, joinSep]
  | cons c cs ih =>
    by_cases hc : c = sep
    · subst hc
      simp [splitOnChar, List.dropWhile_cons, joinSep_splitOnChar]
    · cases hsp : splitOnChar sep cs with
      | nil => exact absurd hsp (splitOnChar_ne_nil sep cs)
      | cons h t =>
        rw [hsp] at ih
        simpa [splitOnChar, hc, hsp, List.dropWhile_cons, bne_iff_ne] using ih

/-! ### Lemmas about trimming and line membership -/

lemma mem_dropWhile_of_mem {p : Char → Bool} {c : Char} {l : List Char}
    (hm : c ∈ l) (hc : p c = false) : c ∈ l.dropWhile p := by
  induction l with
  | nil => cases hm
  | cons a t ih =>
    by_cases ha : p a = true
    · have hct : c ∈ t := by
        rcases List.mem_cons.mp hm with h | h
        · subst h; rw [ha] at hc; cases hc
        · exact h
      simpa [List.dropWhile_cons, ha] using ih hct
    · simp only [Bool.not_eq_true] at ha
      simpa [List.dropWhile_cons, ha] using hm

lemma mem_trim_of_mem {c : Char} {l : JSStr} (hm : c ∈ l) (hc : wsChar c = false) :
    c ∈ trim l := by
  unfold trim
  have h1 : c ∈ l.dropWhile wsChar := mem_dropWhile_of_mem hm hc
  have h2 : c ∈ (l.dropWhile wsChar).reverse := List.mem_reverse.mpr h1
  exact List.mem_reverse.mpr (mem_dropWhile_of_mem h2 hc)

lemma exists_line_of_mem (c sep : Char) (hne : c ≠ sep) :
    ∀ l : List Char, c ∈ l → ∃ line ∈ splitOnChar sep l, c ∈ line := by
  intro l
  induction l with
  | nil => intro h; cases h
  | cons a cs ih =>
    intro hm
    by_cases ha : a = sep
    · subst ha
      have hcs : c ∈ cs := by
        rcases List.mem_cons.mp hm with h | h
        · exact absurd h hne
        · exact h
      obtain ⟨line, hline, hcl⟩ := ih hcs
      refine ⟨line, ?_, hcl⟩
      simp only [splitOnChar, if_pos rfl]
      exact List.mem_cons_of_mem _ hline
    · cases hsp : splitOnChar sep cs with
      | nil => exact absurd hsp (splitOnChar_ne_nil sep cs)
      | cons h t =>
        rcases List.mem_cons.mp hm with hca | hccs
        · subst hca
          refine ⟨c :: h, ?_, List.mem_cons_self _ _⟩
          simp [splitOnChar, ha, hsp]
        · obtain ⟨line, hline, hcl⟩ := ih hccs
          rw [hsp] at hline
          rcases List.mem_cons.mp hline with hlh | hlt
          · subst hlh
            refine ⟨a :: line, ?_, List.mem_cons_of_mem _ hcl⟩
            simp [splitOnChar, ha, hsp]
          · refine ⟨line, ?_, hcl⟩
            simp only [splitOnChar, if_neg ha, hsp]
            exact List.mem_cons_of_mem _ hlt

/-! ### C4: key-value parsing -/

/-- C4: in key-value mode the parser produces exactly one term/definition
pair per non-blank colon-containing line, in the original line order,
the term being the text before the first colon trimmed, and the
definition being the text after the first colon (further colons
preserved) trimmed. -/
theorem c4_keyvalue_parsing (topic : JSStr) :
    termDefPairs topic =
      ((splitOnChar '\n' topic).filter
          (fun line => !(trim line).isEmpty && line.contains ':')).map
        (fun line =>
          { term := trim (line.takeWhile (fun c => c != ':'))
            definition := trim ((line.dropWhile (fun c => c != ':')).drop 1) }) := by
  unfold termDefPairs qualifyingLines
  refine List.map_congr_left ?_
  intro line _
  simp only [parsedTerm, parsedRest, TermDefPair.mk.injEq]
  exact ⟨by rw [splitOnChar_headD], by rw [joinSep_tail_splitOnChar]⟩

/-! ### C10: the key-value validation branch is unreachable -/

/-- C10: whenever key-value mode is selected (the trimmed topic contains
a colon and a newline), at least one line survives the filter, so the
term/definition pair list is non-empty and the ValidationError branch is
not taken. -/
theorem c10_validation_unreachable (topic : JSStr) (h : isKeyValueInput topic = true) :
    termDefPairs topic ≠ [] ∧
      keyValueValidation topic = Except.ok (termDefPairs topic) := by
  have h1 : topic.contains ':' = true := by
    unfold isKeyValueInput at h
    exact ((Bool.and_eq_true _ _).mp h).1
  have hcolon : ':' ∈ topic := List.mem_of_elem_eq_true h1
  obtain ⟨line, hline, hcl⟩ :=
    exists_line_of_mem ':' '\n' (by decide) topic hcolon
  have hq : line ∈ qualifyingLines topic := by
    unfold qualifyingLines
    refine List.mem_filter.mpr ⟨hline, ?_⟩
    have ht : trim line ≠ [] := by
      intro h0
      have hmem := mem_trim_of_mem hcl (by decide)
      rw [h0] at hmem
      cases hmem
    simp [List.isEmpty_iff, ht]
    simpa using hcl
  have hne : termDefPairs topic ≠ [] := by
    unfold termDefPairs
    intro h0
    rw [List.map_eq_nil_iff] at h0
    rw [h0] at hq
    cases hq
  refine ⟨hne, ?_⟩
  unfold keyValueValidation
  simp [List.isEmpty_iff, hne]

/-- Witness for C10 at a concrete topic. -/
theorem c10_validation_unreachable_witness :
    termDefPairs ['a', ':', 'b', '\n', 'c'] ≠ [] ∧
      keyValueValidation ['a', ':', 'b', '\n', 'c'] =
        Except.ok (termDefPairs ['a', ':', 'b', '\n', 'c']) :=
  c10_validation_unreachable ['a', ':', 'b', '\n', 'c'] (by decide)

/-! ### C6: free-form parsing drops malformed lines, errors on zero records -/

lemma filterMap_parseTriplet (l : List JSStr) :
    l.filterMap parseTriplet =
      (l.filter (fun line => decide (3 ≤ (splitOnChar ':' line).length))).map
        (fun line =>
          { emoji := trim ((splitOnChar ':' line).getD 0 [])
            term := trim ((splitOnChar ':' line).getD 1 [])
            definition := trim (joinSep ':' ((splitOnChar ':' line).drop 2)) }) := by
  induction l with
  | nil => rfl
  | cons a t ih =>
    by_cases ha : 3 ≤ (splitOnChar ':' a).length
    · simp [List.filterMap_cons, List.filter_cons, parseTriplet, ha, ih]
    · simp [List.filterMap_cons, List.filter_cons, parseTriplet, ha, ih]

/-- C6: in free-form mode, each non-blank line splitting into fewer than
3 colon-separated segments is discarded without error, and if no line
qualifies the operation fails with the generation error instead of
returning an empty list. -/
theorem c6_freeform_errors (text : JSStr) :
    freeFormFlashcards text =
      ((nonBlankLines text).filter (fun line => decide (3 ≤ (splitOnChar ':' line).length))).map
        (fun line =>
          { emoji := trim ((splitOnChar ':' line).getD 0 [])
            term := trim ((splitOnChar ':' line).getD 1 [])
            definition := trim (joinSep ':' ((splitOnChar ':' line).drop 2)) })
    ∧ (freeFormFlashcards text = [] →
        freeFormResult text = Except.error GenFailure.noFlashcards)
    ∧ (freeFormFlashcards text ≠ [] →
        freeFormResult text = Except.ok (freeFormFlashcards text)) := by
  refine ⟨filterMap_parseTriplet _, ?_, ?_⟩ <;>
    intro h <;> simp [freeFormResult, List.isEmpty_iff, h]

/-- Witness for C6: a single two-segment line yields no records and the
generation error. -/
theorem c6_freeform_errors_witness :
    freeFormResult ['a', ':', 'b'] = Except.error GenFailure.noFlashcards :=
  (c6_freeform_errors ['a', ':', 'b']).2.1 (by decide)

/-! ### C5: case-insensitive emoji matching with fallback -/

lemma jsOrFallback_ne_nil (o : Option JSStr) : jsOrFallback o ≠ [] := by
  unfold jsOrFallback
  cases o with
  | none => simp [fallbackEmoji]
  | some s =>
    by_cases hs : s.isEmpty = true
    · simp [hs, fallbackEmoji]
    · simp only [Bool.not_eq_true] at hs
      simp only [hs, Bool.false_eq_true, if_false]
      intro h
      subst h
      simp at hs

lemma mem_emojiFold (terms : List JSStr) (lines : List JSStr) :
    ∀ (m : List (JSStr × JSStr)) (e : JSStr × JSStr),
      e ∈ lines.foldl (emojiStep terms) m →
      e ∈ m ∨ ∃ line ∈ lines,
        terms.find? (fun t => toLowerStr t == toLowerStr (parsedTerm line)) = some e.1
          ∧ e.2 = parsedRest line := by
  induction lines with
  | nil => intro m e he; exact Or.inl he
  | cons l ls ih =>
    intro m e he
    rw [List.foldl_cons] at he
    rcases ih (emojiStep terms m l) e he with hm | ⟨line, hline, hfound⟩
    · unfold emojiStep at hm
      cases hf : terms.find? (fun t => toLowerStr t == toLowerStr (parsedTerm l)) with
      | none => rw [hf] at hm; exact Or.inl hm
      | some ot =>
        rw [hf] at hm
        rcases List.mem_cons.mp hm with he1 | hm2
        · subst he1
          exact Or.inr ⟨l, List.mem_cons_self _ _, by simpa using hf, rfl⟩
        · exact Or.inl hm2
    · exact Or.inr ⟨line, List.mem_cons_of_mem _ hline, hfound⟩

lemma mapGet_some {m : List (JSStr × JSStr)} {k v : JSStr} (h : mapGet m k = some v) :
    (k, v) ∈ m := by
  unfold mapGet at h
  cases hf : m.find? (fun e => e.1 == k) with
  | none => rw [hf] at h; cases h
  | some e =>
    rw [hf] at h
    injection h with h2
    have h1 : e.1 = k := by simpa using List.find?_some hf
    have hkv : (k, v) = e := by
      cases e
      simp only [Prod.mk.injEq]
      exact ⟨h1.symm, h2.symm⟩
    rw [hkv]
    exact List.mem_of_find?_eq_some hf

lemma emojiMap_entry {terms : List JSStr} {resp : JSStr} {k v : JSStr}
    (h : mapGet (emojiMap terms resp) k = some v) :
    ∃ line ∈ qualifyingLines resp,
      toLowerStr k = toLowerStr (parsedTerm line) ∧ v = parsedRest line := by
  have hm := mapGet_some h
  unfold emojiMap at hm
  rcases mem_emojiFold terms (qualifyingLines resp) [] (k, v) hm with h0 | ⟨line, hline, hf, hr⟩
  · cases h0
  · refine ⟨line, hline, ?_, hr⟩
    have hpred := List.find?_some hf
    simpa using hpred

/-- C5: the record list keeps every original term's casing and order; no
record's emoji is empty; a retrieved emoji always comes from a response
line whose parsed term matches the original term case-insensitively; and
an original term with no case-insensitive match among the response lines
receives the fixed fallback emoji. -/
theorem c5_emoji_matching (pairs : List TermDefPair) (resp : JSStr) :
    ((keyValueFlashcards pairs resp).map Flashcard.term = pairs.map TermDefPair.term
        ∧ (keyValueFlashcards pairs resp).map Flashcard.definition =
            pairs.map TermDefPair.definition)
    ∧ (∀ r ∈ keyValueFlashcards pairs resp, r.emoji ≠ [])
    ∧ (∀ p ∈ pairs, ∀ v,
        mapGet (emojiMap (pairs.map TermDefPair.term) resp) p.term = some v →
        ∃ line ∈ qualifyingLines resp,
          toLowerStr p.term = toLowerStr (parsedTerm line) ∧ v = parsedRest line)
    ∧ (∀ p ∈ pairs,
        (∀ line ∈ qualifyingLines resp,
          toLowerStr (parsedTerm line) ≠ toLowerStr p.term) →
        ∀ r ∈ keyValueFlashcards pairs resp, r.term = p.term →
          r.emoji = fallbackEmoji) := by
  refine ⟨⟨?_, ?_⟩, ?_, ?_, ?_⟩
  · unfold keyValueFlashcards
    rw [List.map_map]
    exact List.map_congr_left fun p _ => rfl
  · unfold keyValueFlashcards
    rw [List.map_map]
    exact List.map_congr_left fun p _ => rfl
  · intro r hr
    unfold keyValueFlashcards at hr
    obtain ⟨p, hp, rfl⟩ := List.mem_map.mp hr
    exact jsOrFallback_ne_nil _
  · intro p hp v hv
    exact emojiMap_entry hv
  · intro p hp hnone r hr hterm
    unfold keyValueFlashcards at hr
    obtain ⟨q, hq, rfl⟩ := List.mem_map.mp hr
    have hqp : q.term = p.term := hterm
    have hget : mapGet (emojiMap (pairs.map TermDefPair.term) resp) p.term = none := by
      cases hv : mapGet (emojiMap (pairs.map TermDefPair.term) resp) p.term with
      | none => rfl
      | some v =>
        obtain ⟨line, hline, hlow, _⟩ := emojiMap_entry hv
        exact absurd hlow.symm (hnone line hline)
    show jsOrFallback (mapGet (emojiMap (pairs.map TermDefPair.term) resp) q.term) = fallbackEmoji
    rw [hqp, hget]
    rfl

/-- Witness for C5: with original term `C` and a response mentioning only
`x`, the produced record carries the fallback emoji. -/
theorem c5_emoji_matching_witness :
    ((keyValueFlashcards [⟨['C'], ['d']⟩] ['x', ':', 'y']).headD ⟨[], [], []⟩).emoji
      = fallbackEmoji :=
  (c5_emoji_matching [⟨['C'], ['d']⟩] ['x', ':', 'y']).2.2.2
    ⟨['C'], ['d']⟩ (by decide) (by decide) _ (by decide) (by decide)

/-! ### View-state helper lemmas -/

lemma isEmpty_false_of_ne_nil {α : Type} {l : List α} (h : l ≠ []) : l.isEmpty = false := by
  cases l with
  | nil => exact absurd rfl h
  | cons a t => rfl

lemma updateCardVisibility_focus_false (s : ViewState) (h : s.isFocusMode = false) :
    (updateCardVisibility s).isFocusMode = false := by
  unfold updateCardVisibility
  split <;> simp [h]

lemma modeSwitchClick_cases (s : ViewState) :
    ((modeSwitchClick s).isFocusMode = (!s.isFocusMode && !s.cards.isEmpty))
    ∧ (s.isFocusMode = false →
        (modeSwitchClick s).currentCardIndex = 0 ∧ (modeSwitchClick s).cards = s.cards)
    ∧ (s.isFocusMode = true →
        (modeSwitchClick s).currentCardIndex = s.currentCardIndex
        ∧ (modeSwitchClick s).cards = s.cards.map unflipCard) := by
  unfold modeSwitchClick updateCardVisibility
  cases hf : s.isFocusMode with
  | false =>
    by_cases hc : s.cards.isEmpty = true
    · simp [hf, hc]
    · simp only [Bool.not_eq_true] at hc
      simp [hf, hc]
  | true =>
    by_cases hc : (s.cards.map unflipCard).isEmpty = true
    · simp [hf, hc]
    · simp only [Bool.not_eq_true] at hc
      simp [hf, hc]

lemma navigateCards_eq (s : ViewState) (dir : Dir) (h : 2 ≤ s.cards.length) :
    navigateCards dir s =
      { isFocusMode := s.isFocusMode
        currentCardIndex :=
          match dir with
          | Dir.next => (s.currentCardIndex + 1) % s.cards.length
          | Dir.prev => (s.currentCardIndex + s.cards.length - 1) % s.cards.length
        cards :=
          s.cards.set s.currentCardIndex
            (unflipCard (s.cards.getD s.currentCardIndex default)) } := by
  have hcards : s.cards ≠ [] := by
    intro h0
    rw [h0] at h
    simp at h
  unfold navigateCards updateCardVisibility
  rw [if_neg (by omega)]
  simp [List.isEmpty_iff, hcards]

/-! ### C7: navigation semantics -/

/-- C7: `navigateCards` is a no-op with fewer than two cards; otherwise
it un-flips the currently focused card, advances the index by plus or
minus one modulo the card count, and wraps in both directions. -/
theorem c7_navigate (s : ViewState) (dir : Dir) :
    (s.cards.length < 2 → navigateCards dir s = s)
    ∧ (2 ≤ s.cards.length →
        (navigateCards dir s).isFocusMode = s.isFocusMode
        ∧ (navigateCards dir s).cards =
            s.cards.set s.currentCardIndex
              (unflipCard (s.cards.getD s.currentCardIndex default))
        ∧ (navigateCards dir s).currentCardIndex =
            (match dir with
             | Dir.next => (s.currentCardIndex + 1) % s.cards.length
             | Dir.prev => (s.currentCardIndex + s.cards.length - 1) % s.cards.length)
        ∧ (dir = Dir.next → s.currentCardIndex = s.cards.length - 1 →
            (navigateCards dir s).currentCardIndex = 0)
        ∧ (dir = Dir.prev → s.currentCardIndex = 0 →
            (navigateCards dir s).currentCardIndex = s.cards.length - 1)) := by
  constructor
  · intro h
    unfold navigateCards
    rw [if_pos (by omega)]
  · intro h
    rw [navigateCards_eq s dir h]
    refine ⟨rfl, rfl, rfl, ?_, ?_⟩
    · rintro rfl hidx
      show (s.currentCardIndex + 1) % s.cards.length = 0
      rw [hidx, Nat.sub_add_cancel (by omega), Nat.mod_self]
    · rintro rfl hidx
      show (s.currentCardIndex + s.cards.length - 1) % s.cards.length = s.cards.length - 1
      rw [hidx, Nat.zero_add, Nat.mod_eq_of_lt (by omega)]

/-- Witness for C7: with two cards, `next` from the last index wraps to
index 0. -/
theorem c7_navigate_witness :
    (navigateCards Dir.next ⟨true, 1, [⟨0, false⟩, ⟨1, true⟩]⟩).currentCardIndex = 0 :=
  ((c7_navigate ⟨true, 1, [⟨0, false⟩, ⟨1, true⟩]⟩ Dir.next).2
    (by decide)).2.2.2.1 rfl (by decide)

/-! ### C8: mode toggling (corrected) -/

/-- C8 counterexample: with an empty card list, the mode-switch handler
does not flip the mode — `updateCardVisibility` forces it straight back
to Grid, so the state is unchanged. -/
theorem c8_toggle_counterexample :
    modeSwitchClick { isFocusMode := false, currentCardIndex := 0, cards := [] }
      = { isFocusMode := false, currentCardIndex := 0, cards := [] } := by decide

/-- C8 amended: with a non-empty card list the handler flips the mode
(and with an empty list it stays Grid); every transition into Focus
resets the index to 0 and leaves the cards untouched; every transition
out of Focus keeps the index and clears the flipped flag on every
card. -/
theorem c8_toggle_amended (s : ViewState) :
    ((modeSwitchClick s).isFocusMode = (!s.isFocusMode && !s.cards.isEmpty))
    ∧ (s.isFocusMode = false →
        (modeSwitchClick s).currentCardIndex = 0 ∧ (modeSwitchClick s).cards = s.cards)
    ∧ (s.isFocusMode = true →
        (modeSwitchClick s).currentCardIndex = s.currentCardIndex
        ∧ (modeSwitchClick s).cards = s.cards.map unflipCard
        ∧ ∀ c ∈ (modeSwitchClick s).cards, c.flipped = false) := by
  obtain ⟨h1, h2, h3⟩ := modeSwitchClick_cases s
  refine ⟨h1, h2, fun hf => ⟨(h3 hf).1, (h3 hf).2, ?_⟩⟩
  rw [(h3 hf).2]
  intro c hcc
  obtain ⟨c0, _, rfl⟩ := List.mem_map.mp hcc
  rfl

/-- Witness for C8 amended: leaving Focus clears the flipped flag. -/
theorem c8_toggle_amended_witness :
    (modeSwitchClick ⟨true, 2, [⟨0, true⟩]⟩).cards = [⟨0, true⟩].map unflipCard :=
  ((c8_toggle_amended ⟨true, 2, [⟨0, true⟩]⟩).2.2 rfl).2.1

/-! ### C2: removing the last card (corrected) -/

/-- C2 counterexample: removing the one remaining card from a state whose
focused index is 1 forces Grid mode but leaves the index at 1 — it is not
reset to 0, so the result is not `reset()`. -/
theorem c2_remove_last_counterexample :
    (deleteCardClick 0 ⟨true, 1, [⟨5, false⟩]⟩).currentCardIndex ≠ 0 := by decide

/-- C2 amended: removing the last remaining card empties the list and
forces Grid mode, but the focused index keeps its previous value (it is
only reset by `resetUI` on the next generation or on entering Focus). -/
theorem c2_remove_last_amended (s : ViewState) (h : s.cards.length = 1) :
    (deleteCardClick 0 s).cards = []
    ∧ (deleteCardClick 0 s).isFocusMode = false
    ∧ (deleteCardClick 0 s).currentCardIndex = s.currentCardIndex := by
  obtain ⟨c, hc⟩ : ∃ c, s.cards = [c] := by
    cases hl : s.cards with
    | nil => rw [hl] at h; simp at h
    | cons a t =>
      cases t with
      | nil => exact ⟨a, rfl⟩
      | cons b t2 => rw [hl] at h; simp at h
  unfold deleteCardClick updateCardVisibility
  simp [hc, List.eraseIdx]

/-- Witness for C2 amended at a concrete one-card state. -/
theorem c2_remove_last_amended_witness :
    (deleteCardClick 0 ⟨true, 1, [⟨7, false⟩]⟩).cards = []
    ∧ (deleteCardClick 0 ⟨true, 1, [⟨7, false⟩]⟩).isFocusMode = false
    ∧ (deleteCardClick 0 ⟨true, 1, [⟨7, false⟩]⟩).currentCardIndex
      = (ViewState.mk true 1 [⟨7, false⟩]).currentCardIndex :=
  c2_remove_last_amended ⟨true, 1, [⟨7, false⟩]⟩ (by decide)

/-! ### Shuffle lemmas -/

lemma insertBeforeFirst_multiset {α : Type} [DecidableEq α] (x y : α) (l : List α) :
    ((insertBeforeFirst x y l : List α) : Multiset α) = x ::ₘ (l : Multiset α) := by
  induction l with
  | nil => rfl
  | cons a t ih =>
    by_cases ha : a = y
    · simp [insertBeforeFirst, ha]
    · simp only [insertBeforeFirst, if_neg ha]
      rw [← Multiset.cons_coe, ih, ← Multiset.cons_coe, Multiset.cons_swap]

lemma domInsertBefore_multiset {α : Type} [DecidableEq α] (l : List α) (x y : α)
    (hx : x ∈ l) :
    ((domInsertBefore l x y : List α) : Multiset α) = (l : Multiset α) := by
  unfold domInsertBefore
  by_cases hxy : x = y
  · simp [hxy]
  · rw [if_neg hxy, insertBeforeFirst_multiset, Multiset.cons_coe,
      Multiset.coe_eq_coe]
    exact (List.perm_cons_erase hx).symm

lemma shuffleGo_multiset {α : Type} [DecidableEq α] [Inhabited α]
    (cards : List α) (r : Nat → Nat) (hr : ∀ k, r k ≤ k) :
    ∀ (i : Nat) (l : List α), i < cards.length →
      ((l : List α) : Multiset α) = (cards : Multiset α) →
      ((shuffleGo cards r i l : List α) : Multiset α) = (cards : Multiset α) := by
  intro i
  induction i with
  | zero =>
    intro l _ hl
    simpa [shuffleGo] using hl
  | succ n ih =>
    intro l hi hl
    show ((shuffleGo cards r n
        (domInsertBefore l (cards.getD (r (n + 1)) default) (cards.getD (n + 1) default))
        : List α) : Multiset α) = (cards : Multiset α)
    apply ih
    · omega
    · rw [domInsertBefore_multiset]
      · exact hl
      · have hrx : r (n + 1) < cards.length := lt_of_le_of_lt (hr (n + 1)) hi
        have hxc : cards.getD (r (n + 1)) default ∈ cards := by
          rw [List.getD_eq_getElem cards default hrx]
          exact List.getElem_mem hrx
        have hxm : cards.getD (r (n + 1)) default ∈ (cards : Multiset α) :=
          Multiset.mem_coe.mpr hxc
        rw [← hl] at hxm
        exact Multiset.mem_coe.mp hxm

lemma shuffleList_multiset {α : Type} [DecidableEq α] [Inhabited α]
    (cards : List α) (r : Nat → Nat) (hr : ∀ k, r k ≤ k) :
    ((shuffleList cards r : List α) : Multiset α) = (cards : Multiset α) := by
  rcases cards with _ | ⟨a, t⟩
  · rfl
  · exact shuffleGo_multiset (a :: t) r hr ((a :: t).length - 1) (a :: t)
      (by simp) rfl

/-! ### C9: shuffling preserves the multiset of cards -/

/-- C9: for every card list and every sequence of in-range random draws,
the shuffle handler produces a reordering of the same cards — the
multiset of handles is preserved (and neither mode nor index is
touched). -/
theorem c9_shuffle_permutation (s : ViewState) (r : Nat → Nat) (hr : ∀ k, r k ≤ k) :
    (((shuffleClick r s).cards : List Card) : Multiset Card) = (s.cards : Multiset Card)
    ∧ (shuffleClick r s).isFocusMode = s.isFocusMode
    ∧ (shuffleClick r s).currentCardIndex = s.currentCardIndex :=
  ⟨shuffleList_multiset s.cards r hr, rfl, rfl⟩

/-- Witness for C9 on a concrete three-card state with all draws 0. -/
theorem c9_shuffle_permutation_witness :
    (((shuffleClick (fun _ => 0) ⟨false, 0, [⟨1, false⟩, ⟨2, false⟩, ⟨3, false⟩]⟩).cards
        : List Card) : Multiset Card)
      = (([⟨1, false⟩, ⟨2, false⟩, ⟨3, false⟩] : List Card) : Multiset Card) :=
  (c9_shuffle_permutation ⟨false, 0, [⟨1, false⟩, ⟨2, false⟩, ⟨3, false⟩]⟩
    (fun _ => 0) (fun k => Nat.zero_le k)).1

/-! ### C3: the shuffle is not the reference Fisher-Yates algorithm -/

/-- C3: the handler's loop moves `cards[j]` in front of `cards[i]` via
`insertBefore` instead of swapping positions `i` and `j`; with three
cards and both random draws equal to 0 the program returns the list
unchanged while the reference swap-based Fisher-Yates algorithm returns
`[1, 2, 0]`, so the two disagree at a fixed random sequence. -/
theorem c3_shuffle_not_fisher_yates :
    shuffleList [0, 1, 2] (fun _ => 0) = [0, 1, 2]
    ∧ fisherYatesSpec [0, 1, 2] (fun _ => 0) = [1, 2, 0]
    ∧ shuffleList [0, 1, 2] (fun _ => 0) ≠ fisherYatesSpec [0, 1, 2] (fun _ => 0) := by
  refine ⟨?_, ?_, ?_⟩ <;> decide

/-! ### C1: the focus-index invariant (corrected) -/

/-- C1 counterexample: from the reachable state (2 cards, Focus, index 1)
deleting the card at position 1 leaves one card with the index still 1:
the removal does not clamp the index, and the invariant fails while the
mode stays Focus on a non-empty list. -/
theorem c1_invariant_counterexample :
    (deleteCardClick 1 ⟨true, 1, [⟨0, false⟩, ⟨1, false⟩]⟩).isFocusMode = true
    ∧ (deleteCardClick 1 ⟨true, 1, [⟨0, false⟩, ⟨1, false⟩]⟩).cards ≠ []
    ∧ ¬ focusInv (deleteCardClick 1 ⟨true, 1, [⟨0, false⟩, ⟨1, false⟩]⟩) := by decide

/-- C1 amended: the invariant is preserved by generation, mode toggling,
navigation, and shuffling; card removal, however, performs no clamping —
when the remaining list is non-empty both the focused index and the mode
are left unchanged (so the invariant can be violated), and only when the
list empties is the mode forced to Grid. -/
theorem c1_invariant_amended (s : ViewState) (dir : Dir) (ids : List Nat) (i : Nat)
    (r : Nat → Nat) (hr : ∀ k, r k ≤ k) (hs : focusInv s) :
    focusInv (generateAddCards ids s)
    ∧ focusInv (modeSwitchClick s)
    ∧ focusInv (navigateCards dir s)
    ∧ focusInv (shuffleClick r s)
    ∧ (s.cards.eraseIdx i ≠ [] →
        (deleteCardClick i s).currentCardIndex = s.currentCardIndex
        ∧ (deleteCardClick i s).isFocusMode = s.isFocusMode
        ∧ (deleteCardClick i s).cards = s.cards.eraseIdx i)
    ∧ (s.cards.eraseIdx i = [] → (deleteCardClick i s).isFocusMode = false) := by
  refine ⟨?_, ?_, ?_, ?_, ?_, ?_⟩
  · intro hfoc
    have hgen : (generateAddCards ids s).isFocusMode = false :=
      updateCardVisibility_focus_false _ rfl
    rw [hgen] at hfoc
    cases hfoc
  · intro hfoc hne
    obtain ⟨h1, h2, _⟩ := modeSwitchClick_cases s
    have hb : (!s.isFocusMode && !s.cards.isEmpty) = true := by
      rw [← h1]
      exact hfoc
    obtain ⟨hb1, hb2⟩ := (Bool.and_eq_true _ _).mp hb
    have hsf : s.isFocusMode = false := by simpa using hb1
    have hce : s.cards.isEmpty = false := by simpa using hb2
    obtain ⟨hidx, hcards⟩ := h2 hsf
    rw [hidx, hcards]
    cases hl : s.cards with
    | nil => rw [hl] at hce; simp at hce
    | cons a t => simp
  · by_cases h2 : 2 ≤ s.cards.length
    · rw [navigateCards_eq s dir h2]
      intro _ hne
      dsimp only
      rw [List.length_set]
      cases dir
      · exact Nat.mod_lt _ (by omega)
      · exact Nat.mod_lt _ (by omega)
    · have hid : navigateCards dir s = s := by
        unfold navigateCards
        rw [if_pos (by omega)]
      rw [hid]
      exact hs
  · intro hfoc hne
    have hlen : (shuffleList s.cards r).length = s.cards.length := by
      have hm := shuffleList_multiset s.cards r hr
      have := congrArg Multiset.card hm
      simpa using this
    have hcne : s.cards ≠ [] := by
      intro h0
      apply hne
      show shuffleList s.cards r = []
      rw [h0]
      rfl
    show s.currentCardIndex < (shuffleList s.cards r).length
    rw [hlen]
    exact hs hfoc hcne
  · intro hne
    unfold deleteCardClick updateCardVisibility
    simp [isEmpty_false_of_ne_nil hne]
  · intro hemp
    unfold deleteCardClick updateCardVisibility
    simp [hemp]

/-- Witness for C1 amended: deleting the remaining card of a one-card
focus state forces Grid mode. -/
theorem c1_invariant_amended_witness :
    (deleteCardClick 0 ⟨true, 0, [⟨9, false⟩]⟩).isFocusMode = false :=
  (c1_invariant_amended ⟨true, 0, [⟨9, false⟩]⟩ Dir.next [] 0
    (fun _ => 0) (fun k => Nat.zero_le k) (by decide)).2.2.2.2.2 (by decide)

end FlashcardMaker
